import Mathlib

/-!
Verification of the swingplayback repository: a shallow embedding, in Lean 4,
of the ring frame buffer, the audio threshold detector, the delayed-save
arithmetic, the capture-loop control flow, the clip playback loop and the clip
file naming, each translated from the Go source (src/video.go, src/audio.go and
the revisions under src/unnamed), together with theorems settling the stated
properties of the system.
-/

namespace SwingPlayback

/-! ## VideoFrameBuffer (src/video.go lines 183-238)

Frames (gocv.Mat values) are opaque to the buffer logic, so the buffer is
modelled over an arbitrary type with a default element: `default` stands for
the zero Mat that `make([]gocv.Mat, maxFrames)` fills the freshly allocated
slot slice with. -/

structure VideoFrameBuffer (α : Type) where
  frames : List α
  idx : Nat
deriving Repr, DecidableEq

/-- `NewVideoFrameBuffer`: `&VideoFrameBuffer{frames: make([]gocv.Mat, maxFrames)}`,
a slot slice of length `maxFrames` holding zero Mats and a zero write cursor. -/
def NewVideoFrameBuffer (α : Type) [Inhabited α] (maxFrames : Nat) : VideoFrameBuffer α :=
  ⟨List.replicate maxFrames default, 0⟩

/-- `VideoFrameBuffer.Append`: while `idx < len(frames)` the frame is stored in
slot `idx` and the cursor advances; otherwise the Go code closes the Mat in
slot 0 (a resource release, with no effect on the remaining stored values) and
shifts: `v.frames = append(v.frames[1:], frame)`. -/
def VideoFrameBuffer.Append (v : VideoFrameBuffer α) (frame : α) : VideoFrameBuffer α :=
  if v.idx < v.frames.length then
    ⟨v.frames.set v.idx frame, v.idx + 1⟩
  else
    ⟨v.frames.drop 1 ++ [frame], v.idx⟩

/-- `VideoFrameBuffer.Full`: `v.idx == len(v.frames)`. -/
def VideoFrameBuffer.Full (v : VideoFrameBuffer α) : Bool :=
  v.idx == v.frames.length

/-- Outcome of `VideoFrameBuffer.Save`, recording what was done externally:
`notFull` is the early error return before the video writer is even created,
`writerFailed` is the `gocv.VideoWriterFile` error return before any frame is
written, `writeFailed ws i` is the error return from writing frame `i` after
the frames `ws` were written, and `ok ws` is the successful return after
writing exactly the frames `ws`, in order. -/
inductive SaveOutcome (α : Type) where
  | notFull (idx capacity : Nat)
  | writerFailed
  | writeFailed (written : List α) (failedIdx : Nat)
  | ok (written : List α)
deriving Repr, DecidableEq

/-- The write loop of `VideoFrameBuffer.Save`:
`for idx, frame := range v.frames { err = videoWriter.Write(frame); if err != nil return err }`.
`writeOk i` tells whether the external writer accepts the `i`-th write. -/
def saveWriteLoop (writeOk : Nat → Bool) : Nat → List α → SaveOutcome α
  | _, [] => SaveOutcome.ok []
  | i, f :: fs =>
    if writeOk i then
      match saveWriteLoop writeOk (i + 1) fs with
      | SaveOutcome.ok ws => SaveOutcome.ok (f :: ws)
      | SaveOutcome.writeFailed ws j => SaveOutcome.writeFailed (f :: ws) j
      | o => o
    else SaveOutcome.writeFailed [] i

/-- `VideoFrameBuffer.Save`: fails with the not-full error when
`!v.Full()` (before any external interaction), then creates the video writer
(`createOk` tells whether `gocv.VideoWriterFile` succeeds), then writes every
frame of the slot slice in index order. -/
def VideoFrameBuffer.Save (v : VideoFrameBuffer α) (createOk : Bool) (writeOk : Nat → Bool) :
    SaveOutcome α :=
  if v.Full then
    if createOk then saveWriteLoop writeOk 0 v.frames
    else SaveOutcome.writerFailed
  else SaveOutcome.notFull v.idx v.frames.length

/-- Appending a sequence of captured frames one by one, as the capture loop does. -/
def appendAll (v : VideoFrameBuffer α) (fs : List α) : VideoFrameBuffer α :=
  fs.foldl VideoFrameBuffer.Append v

theorem appendAll_append (v : VideoFrameBuffer α) (fs : List α) (f : α) :
    appendAll v (fs ++ [f]) = (appendAll v fs).Append f := by
  simp [appendAll, List.foldl_append]

theorem drop_append_of_le {n : Nat} (l₁ l₂ : List α) (h : n ≤ l₁.length) :
    (l₁ ++ l₂).drop n = l₁.drop n ++ l₂ := by
  conv_lhs => rw [← List.take_append_drop n l₁]
  rw [List.append_assoc, List.drop_left' (by simp [Nat.min_eq_left h])]

/-- The closed form of a buffer of capacity `N ≥ 1` after the appends `fs`:
the slots hold the last `N` appended frames in capture order, padded at the
end with zero Mats while fewer than `N` frames have arrived, and the cursor
is the fill count, capped at `N`. -/
theorem appendAll_eq_of_pos [Inhabited α] (N : Nat) (hN : 0 < N) (fs : List α) :
    appendAll (NewVideoFrameBuffer α N) fs =
      ⟨fs.drop (fs.length - N) ++ List.replicate (N - fs.length) default,
        min fs.length N⟩ := by
  induction fs using List.reverseRecOn with
  | nil =>
    simp [appendAll, NewVideoFrameBuffer]
  | append_singleton fs f ih =>
    rw [appendAll_append, ih]
    have hlen1 : (fs ++ [f]).length = fs.length + 1 := by simp
    rcases Nat.lt_or_ge fs.length N with hlt | hge
    · have hdrop : fs.length - N = 0 := by omega
      have hmin : min fs.length N = fs.length := by omega
      rw [hdrop, hmin, List.drop_zero]
      obtain ⟨m, hm⟩ : ∃ m, N - fs.length = m + 1 := ⟨N - fs.length - 1, by omega⟩
      have hlen : (fs ++ List.replicate (N - fs.length) (default : α)).length = N := by
        simp
        omega
      simp only [VideoFrameBuffer.Append, hlen]
      rw [if_pos hlt]
      simp only [VideoFrameBuffer.mk.injEq]
      constructor
      · rw [List.set_append_right _ _ (Nat.le_refl _), Nat.sub_self, hm,
          List.replicate_succ, List.set_cons_zero]
        have h1 : (fs ++ [f]).length - N = 0 := by omega
        have h2 : N - (fs ++ [f]).length = m := by omega
        rw [h1, h2, List.drop_zero, List.append_assoc, List.singleton_append]
      · omega
    · have hrep : N - fs.length = 0 := by omega
      have hmin : min fs.length N = N := by omega
      rw [hrep, hmin, List.replicate_zero, List.append_nil]
      have hlen : (fs.drop (fs.length - N)).length = N := by
        simp
        omega
      simp only [VideoFrameBuffer.Append, hlen]
      rw [if_neg (lt_irrefl N)]
      simp only [VideoFrameBuffer.mk.injEq]
      constructor
      · have h1 : N - (fs ++ [f]).length = 0 := by omega
        have h2 : (fs ++ [f]).length - N = (fs.length - N) + 1 := by omega
        rw [h1, h2, List.replicate_zero, List.append_nil,
          drop_append_of_le _ _ (by omega), List.drop_drop]
      · omega

theorem saveWriteLoop_all_ok (l : List α) (i : Nat) :
    saveWriteLoop (fun _ => true) i l = SaveOutcome.ok l := by
  induction l generalizing i with
  | nil => rfl
  | cons f fs ih => simp [saveWriteLoop, ih]

/-- C1: for every sequence of frame appends into a fresh RingFrameBuffer of
capacity `N ≥ 1`, the buffer never holds more than `N` frames (the slot slice
stays at length `N`); while the fill count is below `N` each append lands in
the next free slot and advances the fill count, the buffer not yet reporting
full; and once at least `N` frames have been appended the buffer reports full
and `Save` (with a working external writer) succeeds, writing exactly the last
`N` appended frames in capture order. -/
theorem c1_ring_buffer_retains_last_n [Inhabited α] (N : Nat) (hN : 0 < N) (fs : List α) :
    (appendAll (NewVideoFrameBuffer α N) fs).frames.length = N ∧
    (fs.length < N →
      (appendAll (NewVideoFrameBuffer α N) fs).idx = fs.length ∧
      (appendAll (NewVideoFrameBuffer α N) fs).frames.take fs.length = fs ∧
      (appendAll (NewVideoFrameBuffer α N) fs).Full = false) ∧
    (N ≤ fs.length →
      (appendAll (NewVideoFrameBuffer α N) fs).Full = true ∧
      (appendAll (NewVideoFrameBuffer α N) fs).Save true (fun _ => true) =
        SaveOutcome.ok (fs.drop (fs.length - N))) := by
  rw [appendAll_eq_of_pos N hN fs]
  dsimp only
  refine ⟨?_, ?_, ?_⟩
  · simp
    omega
  · intro hlt
    have hdrop : fs.length - N = 0 := by omega
    refine ⟨by omega, ?_, ?_⟩
    · rw [hdrop, List.drop_zero, List.take_left]
    · simp [VideoFrameBuffer.Full]
      omega
  · intro hge
    have hfull : VideoFrameBuffer.Full
        (⟨fs.drop (fs.length - N) ++ List.replicate (N - fs.length) default,
          min fs.length N⟩ : VideoFrameBuffer α) = true := by
      simp [VideoFrameBuffer.Full]
      omega
    refine ⟨hfull, ?_⟩
    rw [VideoFrameBuffer.Save, if_pos hfull, if_pos rfl, saveWriteLoop_all_ok]
    have : N - fs.length = 0 := by omega
    rw [this, List.replicate_zero, List.append_nil]

theorem c1_ring_buffer_retains_last_n_witness :
    0 < 2 ∧
    (appendAll (NewVideoFrameBuffer Nat 2) [10, 20, 30]).Full = true ∧
    (appendAll (NewVideoFrameBuffer Nat 2) [10, 20, 30]).Save true (fun _ => true) =
      SaveOutcome.ok [20, 30] := by
  refine ⟨by decide, ?_⟩
  have h := (c1_ring_buffer_retains_last_n 2 (by decide) [10, 20, 30]).2.2 (by decide)
  exact ⟨h.1, h.2⟩

/-- C2: `Save` on a buffer whose fill count is strictly below its capacity
returns the not-full error, and nothing external happens: the result is the
early `notFull` return (no writer created, no frame written), independent of
whatever the external video writer would have done. -/
theorem c2_save_not_full_writes_nothing (v : VideoFrameBuffer α)
    (h : v.idx < v.frames.length) (createOk : Bool) (writeOk : Nat → Bool) :
    v.Save createOk writeOk = SaveOutcome.notFull v.idx v.frames.length ∧
    (∀ (createOk' : Bool) (writeOk' : Nat → Bool),
      v.Save createOk writeOk = v.Save createOk' writeOk') := by
  have hfull : v.Full = false := by
    simp [VideoFrameBuffer.Full]
    omega
  constructor
  · rw [VideoFrameBuffer.Save, hfull]
    simp
  · intro createOk' writeOk'
    rw [VideoFrameBuffer.Save, VideoFrameBuffer.Save, hfull]
    simp

theorem c2_save_not_full_writes_nothing_witness :
    (appendAll (NewVideoFrameBuffer Nat 2) [7]).idx <
      (appendAll (NewVideoFrameBuffer Nat 2) [7]).frames.length ∧
    (appendAll (NewVideoFrameBuffer Nat 2) [7]).Save true (fun _ => true) =
      SaveOutcome.notFull 1 2 := by
  refine ⟨by decide, ?_⟩
  have h := (c2_save_not_full_writes_nothing (appendAll (NewVideoFrameBuffer Nat 2) [7])
    (by decide) true (fun _ => true)).1
  simpa using h

/-- C9: implicit invariant of the buffer: from construction through any append
sequence the slot slice keeps length exactly `N` (pre-allocated, never grows or
shrinks), the fill count is bounded by `N` and non-decreasing across further
appends, and once the buffer reports full it reports full after every
subsequent append, forever. -/
theorem c9_capacity_fixed_full_monotone [Inhabited α] (N : Nat) (hN : 0 < N)
    (fs gs : List α) :
    (appendAll (NewVideoFrameBuffer α N) fs).frames.length = N ∧
    (appendAll (NewVideoFrameBuffer α N) fs).idx ≤ N ∧
    (appendAll (NewVideoFrameBuffer α N) fs).idx ≤
      (appendAll (NewVideoFrameBuffer α N) (fs ++ gs)).idx ∧
    ((appendAll (NewVideoFrameBuffer α N) fs).Full = true →
      (appendAll (NewVideoFrameBuffer α N) (fs ++ gs)).Full = true) := by
  rw [appendAll_eq_of_pos N hN fs, appendAll_eq_of_pos N hN (fs ++ gs)]
  dsimp only
  have hlen : (fs ++ gs).length = fs.length + gs.length := by simp
  refine ⟨?_, by omega, by omega, ?_⟩
  · simp
    omega
  · intro hfull
    simp only [VideoFrameBuffer.Full] at hfull ⊢
    simp only [List.length_append, List.length_drop, List.length_replicate,
      beq_iff_eq] at hfull ⊢
    omega

theorem c9_capacity_fixed_full_monotone_witness :
    0 < 1 ∧
    (appendAll (NewVideoFrameBuffer Nat 1) ([3] ++ [4, 5])).Full = true := by
  refine ⟨by decide, ?_⟩
  exact (c9_capacity_fixed_full_monotone 1 (by decide) [3] [4, 5]).2.2.2 (by decide)

/-! ## Float semantics of the audio math (src/audio.go, src/unnamed/part_001)

The audio pipeline works in Go float64. The values the claims depend on are
NaN, the infinities and exact zero, so float64 is modelled as an inductive
with those special values and with finite values carried as exact reals
(rounding of finite arithmetic is not modelled). The operations below follow
the IEEE-754 rules Go implements: NaN propagates, `0/0` and `0*Inf` are NaN,
`x/0` for finite nonzero `x` is a signed infinity, `Sqrt` and `Log10` of a
negative value are NaN, `Log10 0` is `-Inf`, and every ordered comparison
involving NaN is false. -/

inductive GoFloat where
  | nan : GoFloat
  | negInf : GoFloat
  | posInf : GoFloat
  | finite (x : ℝ) : GoFloat

noncomputable def GoFloat.add : GoFloat → GoFloat → GoFloat
  | nan, _ => nan
  | _, nan => nan
  | posInf, negInf => nan
  | negInf, posInf => nan
  | posInf, _ => posInf
  | _, posInf => posInf
  | negInf, _ => negInf
  | _, negInf => negInf
  | finite x, finite y => finite (x + y)

noncomputable def GoFloat.mul : GoFloat → GoFloat → GoFloat
  | nan, _ => nan
  | _, nan => nan
  | posInf, posInf => posInf
  | posInf, negInf => negInf
  | negInf, posInf => negInf
  | negInf, negInf => posInf
  | posInf, finite y => if y = 0 then nan else if 0 < y then posInf else negInf
  | finite x, posInf => if x = 0 then nan else if 0 < x then posInf else negInf
  | negInf, finite y => if y = 0 then nan else if 0 < y then negInf else posInf
  | finite x, negInf => if x = 0 then nan else if 0 < x then negInf else posInf
  | finite x, finite y => finite (x * y)

noncomputable def GoFloat.div : GoFloat → GoFloat → GoFloat
  | nan, _ => nan
  | _, nan => nan
  | posInf, posInf => nan
  | posInf, negInf => nan
  | negInf, posInf => nan
  | negInf, negInf => nan
  | posInf, finite y => if 0 ≤ y then posInf else negInf
  | negInf, finite y => if 0 ≤ y then negInf else posInf
  | finite _, posInf => finite 0
  | finite _, negInf => finite 0
  | finite x, finite y =>
    if y = 0 then (if x = 0 then nan else if 0 < x then posInf else negInf)
    else finite (x / y)

/-- Go `math.Sqrt`. -/
noncomputable def GoFloat.sqrt : GoFloat → GoFloat
  | nan => nan
  | posInf => posInf
  | negInf => nan
  | finite x => if x < 0 then nan else finite (Real.sqrt x)

/-- Go `math.Log10`. -/
noncomputable def GoFloat.log10 : GoFloat → GoFloat
  | nan => nan
  | posInf => posInf
  | negInf => nan
  | finite x => if x < 0 then nan else if x = 0 then negInf else finite (Real.logb 10 x)

/-- Go `>` on float64: false whenever either side is NaN, `-Inf` exceeds
nothing, `+Inf` exceeds everything but itself and NaN. -/
noncomputable def GoFloat.gt : GoFloat → GoFloat → Bool
  | nan, _ => false
  | _, nan => false
  | negInf, _ => false
  | _, negInf => true
  | posInf, posInf => false
  | posInf, _ => true
  | _, posInf => false
  | finite x, finite y => decide (y < x)

/-- Go `==` on float64: false whenever either side is NaN. -/
noncomputable def GoFloat.beq : GoFloat → GoFloat → Bool
  | nan, _ => false
  | _, nan => false
  | negInf, negInf => true
  | posInf, posInf => true
  | finite x, finite y => decide (x = y)
  | _, _ => false

/-- `calculateRMS` (src/audio.go lines 203-210): the sum of the squared
samples, divided by the sample count, square-rooted — all in float64. For an
empty window the division is `0/0`. -/
noncomputable def calculateRMS (samples : List GoFloat) : GoFloat :=
  let sum := samples.foldl (fun acc sample => acc.add (sample.mul sample)) (GoFloat.finite 0)
  let mean := sum.div (GoFloat.finite (samples.length : ℝ))
  mean.sqrt

/-- `calculateDecibels` (src/audio.go lines 191-200): `-Inf` when `rms == 0`,
otherwise `20 * math.Log10(rms / 32768)`. -/
noncomputable def calculateDecibels (signal : List GoFloat) : GoFloat :=
  let rms := calculateRMS signal
  if rms.beq (GoFloat.finite 0) then GoFloat.negInf
  else (GoFloat.finite 20).mul ((rms.div (GoFloat.finite 32768)).log10)

/-- The Detection value (src/unnamed/part_001 lines 448-451). Times are
integer nanoseconds, as in Go `time`. -/
structure Detection where
  Decibel : GoFloat
  DetectionTime : Int

/-- One polling tick of `Audio.StartDetection`: the tick's wall-clock time and
the rolling sample window `bite` at that moment. -/
structure AudioTick where
  now : Int
  bite : List GoFloat

/-- The body of the detection loop (src/unnamed/part_001 lines 399-418): on a
tick, compute the decibel level of the rolling window; if it exceeds the
threshold and `time.Now().Add(-minDetectionInterval).After(lastDetection)`
holds — more than the minimum interval elapsed since the last emission — then
record the tick time as the new last-emission time and emit a Detection with
the measured decibels and the current time. -/
noncomputable def detectStep (decibelThreshold : GoFloat) (minDetectionInterval : Int)
    (lastDetection : Int) (t : AudioTick) : Int × Option Detection :=
  let decibels := calculateDecibels t.bite
  if decibels.gt decibelThreshold && decide (lastDetection < t.now - minDetectionInterval) then
    (t.now, some ⟨decibels, t.now⟩)
  else (lastDetection, none)

/-- The detection loop over a finite sequence of ticks, returning the final
last-emission time and the emitted Detections in order. -/
noncomputable def runDetect (decibelThreshold : GoFloat) (minDetectionInterval : Int) :
    Int → List AudioTick → Int × List Detection
  | last, [] => (last, [])
  | last, t :: ts =>
    match detectStep decibelThreshold minDetectionInterval last t with
    | (l, some d) =>
      let r := runDetect decibelThreshold minDetectionInterval l ts
      (r.1, d :: r.2)
    | (l, none) => runDetect decibelThreshold minDetectionInterval l ts

theorem GoFloat.gt_self (x : GoFloat) : x.gt x = false := by
  cases x <;> simp [GoFloat.gt]

theorem GoFloat.negInf_gt (y : GoFloat) : GoFloat.negInf.gt y = false := by
  cases y <;> rfl

theorem GoFloat.nan_gt (y : GoFloat) : GoFloat.nan.gt y = false := by
  cases y <;> rfl

theorem detectStep_no_gt (thr : GoFloat) (mi last : Int) (t : AudioTick)
    (h : (calculateDecibels t.bite).gt thr = false) :
    detectStep thr mi last t = (last, none) := by
  rw [detectStep]
  simp [h]

theorem runDetect_head_gap (thr : GoFloat) (mi : Int) (ts : List AudioTick) :
    ∀ (last : Int) (d : Detection),
      ((runDetect thr mi last ts).2).head? = some d → last + mi < d.DetectionTime := by
  induction ts with
  | nil =>
    intro last d h
    simp [runDetect] at h
  | cons t ts ih =>
    intro last d h
    rw [runDetect, detectStep] at h
    by_cases hc :
        ((calculateDecibels t.bite).gt thr && decide (last < t.now - mi)) = true
    · rw [if_pos hc] at h
      simp at h
      have := of_decide_eq_true (Bool.and_elim_right hc)
      rw [← h]
      dsimp only
      omega
    · rw [if_neg hc] at h
      exact ih last d h

theorem runDetect_chain (thr : GoFloat) (mi : Int) (ts : List AudioTick) :
    ∀ last : Int,
      List.Chain' (fun d₁ d₂ => d₁.DetectionTime + mi < d₂.DetectionTime)
        (runDetect thr mi last ts).2 := by
  induction ts with
  | nil =>
    intro last
    simp [runDetect]
  | cons t ts ih =>
    intro last
    rw [runDetect, detectStep]
    by_cases hc :
        ((calculateDecibels t.bite).gt thr && decide (last < t.now - mi)) = true
    · rw [if_pos hc]
      refine List.chain'_cons'.mpr ⟨?_, ih t.now⟩
      intro d hd
      exact runDetect_head_gap thr mi ts t.now d hd
    · rw [if_neg hc]
      exact ih last

theorem runDetect_mem_gt (thr : GoFloat) (mi : Int) (ts : List AudioTick) :
    ∀ (last : Int) (d : Detection),
      d ∈ (runDetect thr mi last ts).2 → d.Decibel.gt thr = true := by
  induction ts with
  | nil =>
    intro last d h
    simp [runDetect] at h
  | cons t ts ih =>
    intro last d h
    rw [runDetect, detectStep] at h
    by_cases hc :
        ((calculateDecibels t.bite).gt thr && decide (last < t.now - mi)) = true
    · rw [if_pos hc] at h
      simp at h
      rcases h with h | h
      · rw [h]
        exact Bool.and_elim_left hc
      · exact ih t.now d h
    · rw [if_neg hc] at h
      exact ih last d h

/-- C4: over any sequence of ticks, the detection loop never emits two
Detections whose times are within the minimum re-trigger interval of each
other: consecutive emitted Detections are separated by strictly more than
`minDetectionInterval`, and every emitted Detection carried a decibel level
strictly above the threshold — so a continuously loud signal yields one
Detection per interval, not one per tick. -/
theorem c4_debounce_min_interval (thr : GoFloat) (minInterval lastDetection : Int)
    (ticks : List AudioTick) :
    List.Chain' (fun d₁ d₂ => d₁.DetectionTime + minInterval < d₂.DetectionTime)
      (runDetect thr minInterval lastDetection ticks).2 ∧
    ∀ d ∈ (runDetect thr minInterval lastDetection ticks).2, d.Decibel.gt thr = true :=
  ⟨runDetect_chain thr minInterval ticks lastDetection,
   fun d hd => runDetect_mem_gt thr minInterval ticks lastDetection d hd⟩

theorem sumSquares_replicate_zero (n : Nat) :
    List.foldl (fun acc sample => acc.add (sample.mul sample)) (GoFloat.finite 0)
      (List.replicate n (GoFloat.finite 0)) = GoFloat.finite 0 := by
  induction n with
  | zero => rfl
  | succ n ih =>
    rw [List.replicate_succ, List.foldl_cons]
    have hstep : (GoFloat.finite 0).add ((GoFloat.finite 0).mul (GoFloat.finite 0)) =
        GoFloat.finite 0 := by
      simp [GoFloat.mul, GoFloat.add]
    rw [hstep, ih]

theorem calculateRMS_silence (n : Nat) (hn : 0 < n) :
    calculateRMS (List.replicate n (GoFloat.finite 0)) = GoFloat.finite 0 := by
  rw [calculateRMS]
  rw [sumSquares_replicate_zero]
  have hne : ((List.replicate n (GoFloat.finite 0)).length : ℝ) ≠ 0 := by
    simp
    omega
  rw [GoFloat.div, if_neg hne, zero_div, GoFloat.sqrt, if_neg (lt_irrefl 0), Real.sqrt_zero]

theorem calculateDecibels_silence (n : Nat) (hn : 0 < n) :
    calculateDecibels (List.replicate n (GoFloat.finite 0)) = GoFloat.negInf := by
  rw [calculateDecibels]
  rw [calculateRMS_silence n hn, GoFloat.beq]
  simp

/-- C5: detection triggering is strict-greater-than — a tick whose computed
decibel level equals the threshold exactly emits nothing — and an all-silence
rolling window (every sample zero, so RMS = 0) computes to negative-infinity
decibels, which exceeds no threshold, so a silent tick never emits a
Detection. -/
theorem c5_strict_threshold_silence_neg_infinity (thr : GoFloat)
    (minInterval last : Int) (t : AudioTick) (n : Nat)
    (hEq : calculateDecibels t.bite = thr) (hn : 0 < n) :
    detectStep thr minInterval last t = (last, none) ∧
    calculateDecibels (List.replicate n (GoFloat.finite 0)) = GoFloat.negInf ∧
    (∀ thr' : GoFloat, GoFloat.negInf.gt thr' = false) ∧
    (∀ (thr' : GoFloat) (mi last' now : Int),
      detectStep thr' mi last' ⟨now, List.replicate n (GoFloat.finite 0)⟩ = (last', none)) := by
  refine ⟨?_, calculateDecibels_silence n hn, GoFloat.negInf_gt, ?_⟩
  · apply detectStep_no_gt
    rw [hEq]
    exact GoFloat.gt_self thr
  · intro thr' mi last' now
    apply detectStep_no_gt
    show (calculateDecibels (List.replicate n (GoFloat.finite 0))).gt thr' = false
    rw [calculateDecibels_silence n hn]
    exact GoFloat.negInf_gt thr'

theorem c5_strict_threshold_silence_neg_infinity_witness :
    calculateDecibels [GoFloat.finite 32768] = calculateDecibels [GoFloat.finite 32768] ∧
    0 < 2 ∧
    detectStep (calculateDecibels [GoFloat.finite 32768]) 100 0
        ⟨1000, [GoFloat.finite 32768]⟩ = (0, none) ∧
    calculateDecibels (List.replicate 2 (GoFloat.finite 0)) = GoFloat.negInf := by
  have h := c5_strict_threshold_silence_neg_infinity
    (calculateDecibels [GoFloat.finite 32768]) 100 0 ⟨1000, [GoFloat.finite 32768]⟩ 2
    rfl (by decide)
  exact ⟨rfl, by decide, h.1, h.2.1⟩

/-- C10: for an empty sample window `calculateRMS` computes `0/0`, which is
NaN, so `calculateDecibels` returns NaN — not the negative infinity the spec
promises for silence — and since NaN compares greater-than false against every
threshold, the detector emits nothing while the window is still empty. -/
theorem c10_empty_window_nan :
    calculateRMS [] = GoFloat.nan ∧
    calculateDecibels [] = GoFloat.nan ∧
    calculateDecibels [] ≠ GoFloat.negInf ∧
    (∀ thr : GoFloat, GoFloat.nan.gt thr = false) ∧
    (∀ (thr : GoFloat) (minInterval last now : Int),
      detectStep thr minInterval last ⟨now, []⟩ = (last, none)) := by
  have hrms : calculateRMS [] = GoFloat.nan := by
    rw [calculateRMS]
    rw [List.foldl_nil, List.length_nil, Nat.cast_zero, GoFloat.div]
    rw [if_pos rfl, if_pos rfl, GoFloat.sqrt]
  have hdb : calculateDecibels [] = GoFloat.nan := by
    rw [calculateDecibels]
    rw [hrms]
    rfl
  refine ⟨hrms, hdb, by rw [hdb]; exact fun h => GoFloat.noConfusion h, GoFloat.nan_gt, ?_⟩
  intro thr minInterval last now
  apply detectStep_no_gt
  show (calculateDecibels []).gt thr = false
  rw [hdb]
  exact GoFloat.nan_gt thr

/-! ## VideoProfile.Save: the delayed save trigger (src/video.go lines 175-181) -/

/-- The fields of VideoProfile that the delayed save trigger reads. -/
structure VideoProfile where
  name : String
  durationToCaptureAfterEvent : Int

/-- Go `time.Since(t)`: the elapsed nanoseconds `now - t`. -/
def timeSince (now t : Int) : Int := now - t

/-- Go `time.Sleep(d)`: a negative or zero duration returns immediately;
`sleepTime d` is the time actually slept. -/
def sleepTime (d : Int) : Int := max d 0

/-- `VideoProfile.Save` (src/video.go lines 175-181): computes
`elapsed := time.Since(detection.DetectionTime)`,
`delay := v.durationToCaptureAfterEvent - elapsed`, sleeps for `delay`, then
sends on the save channel. Returns how long it slept and that the save signal
was sent. -/
def VideoProfile.Save (v : VideoProfile) (detection : Detection) (now : Int) : Int × Bool :=
  let elapsed := timeSince now detection.DetectionTime
  let delay := v.durationToCaptureAfterEvent - elapsed
  (sleepTime delay, true)

/-- C3: the save path computes
`delay = postEventCaptureDuration - (now - detection.occurredAt)` and sleeps
exactly that long before signaling save when the delay is positive; when the
delay is zero or negative the sleep is skipped (zero time slept) and the save
signal goes out immediately; the signal is sent in every case. -/
theorem c3_delayed_save_sleep (v : VideoProfile) (d : Detection) (now : Int) :
    (VideoProfile.Save v d now).2 = true ∧
    (v.durationToCaptureAfterEvent - (now - d.DetectionTime) ≤ 0 →
      (VideoProfile.Save v d now).1 = 0) ∧
    (0 ≤ v.durationToCaptureAfterEvent - (now - d.DetectionTime) →
      (VideoProfile.Save v d now).1 =
        v.durationToCaptureAfterEvent - (now - d.DetectionTime)) := by
  refine ⟨rfl, ?_, ?_⟩ <;>
    intro h <;>
    simp only [VideoProfile.Save, timeSince, sleepTime] <;>
    omega

theorem c3_delayed_save_sleep_witness :
    (0 : Int) ≤ 2000000000 - (1000000000 - 0) ∧
    (VideoProfile.Save ⟨"front", 2000000000⟩ ⟨GoFloat.nan, 0⟩ 1000000000).1 = 1000000000 := by
  refine ⟨by decide, ?_⟩
  have h := (c3_delayed_save_sleep ⟨"front", 2000000000⟩ ⟨GoFloat.nan, 0⟩ 1000000000).2.2
    (by decide)
  rw [h]
  decide

/-! ## Clip file naming (src/video.go lines 135-137) -/

/-- One decimal digit character. -/
def digitChar (n : Nat) : Char := Char.ofNat (48 + n % 10)

/-- A two-digit zero-padded decimal field, as the Go time layout fields
`01`, `02`, `15`, `04`, `05` render in-range values. -/
def pad2 (n : Nat) : String := String.mk [digitChar (n / 10), digitChar n]

/-- A four-digit zero-padded decimal field, as the Go layout field `2006`
renders in-range years. -/
def pad4 (n : Nat) : String :=
  String.mk [digitChar (n / 1000), digitChar (n / 100), digitChar (n / 10), digitChar n]

/-- A wall-clock instant, holding the fields the layout `2006-01-02 15-04-05` reads. -/
structure GoTime where
  year : Nat
  month : Nat
  day : Nat
  hour : Nat
  minute : Nat
  second : Nat

/-- `time.Now().Format("2006-01-02 15-04-05")` (src/video.go line 136). -/
def formatTimestamp (t : GoTime) : String :=
  pad4 t.year ++ "-" ++ pad2 t.month ++ "-" ++ pad2 t.day ++ " " ++
    pad2 t.hour ++ "-" ++ pad2 t.minute ++ "-" ++ pad2 t.second

/-- The clip file name the capture loop builds (src/video.go line 137):
`fmt.Sprintf("videos/%s %s.avi", t, v.name)` — the timestamp first, then the
stream name. -/
def clipFileName (name : String) (timestamp : String) : String :=
  "videos/" ++ timestamp ++ " " ++ name ++ ".avi"

/-- Modelled from the spec: section 6 says clip files are named
`<stream-name> <timestamp>.<ext>`, the stream name first. Stated only for
comparison with `clipFileName`, the name the code actually builds. -/
def specClipFileName (name : String) (timestamp : String) : String :=
  "videos/" ++ name ++ " " ++ timestamp ++ ".avi"

/-- C8 counterexample: for the front stream at 2026-01-02 15:04:05 the code
produces `videos/2026-01-02 15-04-05 front.avi`, not the
`<stream-name> <timestamp>` order the claim states. -/
theorem c8_clip_file_name_counterexample :
    clipFileName "front" (formatTimestamp ⟨2026, 1, 2, 15, 4, 5⟩) ≠
      specClipFileName "front" (formatTimestamp ⟨2026, 1, 2, 15, 4, 5⟩) := by
  decide

theorem digitChar_isDigit (n : Nat) : (digitChar n).isDigit = true := by
  rw [digitChar]
  have hk : n % 10 < 10 := Nat.mod_lt _ (by norm_num)
  set k := n % 10 with hkdef
  interval_cases k <;> decide

theorem mem_pad2_isDigit (n : Nat) (c : Char) (h : c ∈ (pad2 n).data) : c.isDigit = true := by
  have hd : (pad2 n).data = [digitChar (n / 10), digitChar n] := rfl
  rw [hd] at h
  simp at h
  rcases h with rfl | rfl <;> exact digitChar_isDigit _

theorem mem_pad4_isDigit (n : Nat) (c : Char) (h : c ∈ (pad4 n).data) : c.isDigit = true := by
  have hd : (pad4 n).data =
      [digitChar (n / 1000), digitChar (n / 100), digitChar (n / 10), digitChar n] := rfl
  rw [hd] at h
  simp at h
  rcases h with rfl | rfl | rfl | rfl <;> exact digitChar_isDigit _

/-- C8 (amended): every persisted clip file name is
`videos/<timestamp> <stream-name>.avi` — the fixed relative directory
`videos/`, then the timestamp in format `YYYY-MM-DD HH-MM-SS` (19 characters:
digits with `-` and one space as separators), a space, the stream name, and
the `.avi` extension. -/
theorem c8_clip_file_name_format (name : String) (t : GoTime) :
    clipFileName name (formatTimestamp t) =
      "videos/" ++ formatTimestamp t ++ " " ++ name ++ ".avi" ∧
    (formatTimestamp t).length = 19 ∧
    (∃ rest, clipFileName name (formatTimestamp t) = "videos/" ++ rest) ∧
    (∃ stem, clipFileName name (formatTimestamp t) = stem ++ ".avi") ∧
    ∀ c ∈ (formatTimestamp t).data, c.isDigit = true ∨ c = '-' ∨ c = ' ' := by
  refine ⟨rfl, ?_, ⟨formatTimestamp t ++ " " ++ name ++ ".avi", ?_⟩,
    ⟨"videos/" ++ formatTimestamp t ++ " " ++ name, rfl⟩, ?_⟩
  · show (formatTimestamp t).data.length = 19
    simp [formatTimestamp, pad2, pad4]
  · simp [clipFileName, String.append_assoc]
  · intro c hc
    rw [formatTimestamp] at hc
    simp only [String.data_append, List.mem_append] at hc
    rcases hc with (((((((((h | h) | h) | h) | h) | h) | h) | h) | h) | h) | h
    · exact Or.inl (mem_pad4_isDigit _ _ h)
    · simp at h; exact Or.inr (Or.inl h)
    · exact Or.inl (mem_pad2_isDigit _ _ h)
    · simp at h; exact Or.inr (Or.inl h)
    · exact Or.inl (mem_pad2_isDigit _ _ h)
    · simp at h; exact Or.inr (Or.inr h)
    · exact Or.inl (mem_pad2_isDigit _ _ h)
    · simp at h; exact Or.inr (Or.inl h)
    · exact Or.inl (mem_pad2_isDigit _ _ h)
    · simp at h; exact Or.inr (Or.inl h)
    · exact Or.inl (mem_pad2_isDigit _ _ h)

/-! ## The capture loop (src/video.go lines 114-169) -/

/-- A control input consumed by one iteration of the capture loop's select:
the stop signal, the save signal (carrying how the external video writer will
behave for the save it triggers), a decoded camera frame, or a not-ready
camera poll. -/
inductive CaptureSignal (α : Type) where
  | stop
  | save (createOk : Bool) (writeOk : Nat → Bool)
  | frame (f : α)
  | noFrame

/-- The externally observable actions of the capture loop, in program order. -/
inductive CaptureEvent (α : Type) where
  | stopPlayback (id : Nat)
  | savedClip (frames : List α)
  | saveFailed
  | playbackStarted (id : Nat)
  | frameAppended (f : α)
  | captureStopped
deriving DecidableEq

/-- The capture loop's local state: the ring buffer, the `playback` variable
(the most recently started VideoPlayback, `nil` before the first successful
save), and a counter handing out identities for started playbacks. -/
structure CaptureState (α : Type) where
  buffer : VideoFrameBuffer α
  playback : Option Nat
  nextId : Nat

def initialCaptureState (α : Type) [Inhabited α] (capacity : Nat) : CaptureState α :=
  ⟨NewVideoFrameBuffer α capacity, none, 0⟩

/-- One iteration of the capture loop select (src/video.go lines 124-166).
On the save signal: if `playback != nil`, `playback.Stop()` first; then
`frameBuffer.Save(...)`; on success construct a new VideoPlayback and start
it; on failure log and keep capturing. On a camera frame: clone and rotate
(value-preserving here) and append to the buffer. -/
def captureStep [Inhabited α] (s : CaptureState α) :
    CaptureSignal α → CaptureState α × List (CaptureEvent α)
  | CaptureSignal.stop => (s, [CaptureEvent.captureStopped])
  | CaptureSignal.save createOk writeOk =>
    let stopEvents : List (CaptureEvent α) :=
      match s.playback with
      | some p => [CaptureEvent.stopPlayback p]
      | none => []
    match s.buffer.Save createOk writeOk with
    | SaveOutcome.ok frames =>
      ({ s with playback := some s.nextId, nextId := s.nextId + 1 },
        stopEvents ++ [CaptureEvent.savedClip frames, CaptureEvent.playbackStarted s.nextId])
    | _ => (s, stopEvents ++ [CaptureEvent.saveFailed])
  | CaptureSignal.frame f =>
    ({ s with buffer := s.buffer.Append f }, [CaptureEvent.frameAppended f])
  | CaptureSignal.noFrame => (s, [])

/-- The capture loop over a list of pending signals; the loop exits when the
stop signal is received. -/
def runCapture [Inhabited α] (s : CaptureState α) :
    List (CaptureSignal α) → List (CaptureEvent α)
  | [] => []
  | sig :: sigs =>
    let r := captureStep s sig
    match sig with
    | CaptureSignal.stop => r.2
    | _ => r.2 ++ runCapture r.1 sigs

/-- Walks a capture trace maintaining the list of running playbacks (started
and not yet stopped), checking that every `playbackStarted` happens while no
playback is running. -/
def noConcurrentPlayback : List Nat → List (CaptureEvent α) → Bool
  | _, [] => true
  | r, CaptureEvent.playbackStarted id :: evs =>
    r.isEmpty && noConcurrentPlayback (id :: r) evs
  | r, CaptureEvent.stopPlayback id :: evs =>
    noConcurrentPlayback (r.filter (fun q => q != id)) evs
  | r, _ :: evs => noConcurrentPlayback r evs

theorem runCapture_no_concurrent [Inhabited α] (sigs : List (CaptureSignal α)) :
    ∀ (s : CaptureState α) (r : List Nat),
      (r = [] ∨ ∃ p, s.playback = some p ∧ r = [p]) →
      noConcurrentPlayback r (runCapture s sigs) = true := by
  induction sigs with
  | nil =>
    intro s r _
    rfl
  | cons sig sigs ih =>
    intro s r hr
    cases sig with
    | stop =>
      simp [runCapture, captureStep, noConcurrentPlayback]
    | noFrame =>
      simp only [runCapture, captureStep, List.nil_append]
      exact ih s r hr
    | frame f =>
      simp only [runCapture, captureStep, List.singleton_append, noConcurrentPlayback]
      apply ih _ r
      rcases hr with h | ⟨p, hp, h⟩
      · exact Or.inl h
      · exact Or.inr ⟨p, hp, h⟩
    | save createOk writeOk =>
      have hrEmpty : ∀ p, s.playback = some p → r.filter (fun q => q != p) = [] := by
        intro p hp
        rcases hr with h | ⟨p', hp', h⟩
        · rw [h]
          rfl
        · rw [hp'] at hp
          cases hp
          rw [h]
          simp
      cases hp : s.playback with
      | none =>
        have hrNil : r = [] := by
          rcases hr with h | ⟨p', hp', _⟩
          · exact h
          · rw [hp] at hp'
            cases hp'
        subst hrNil
        cases hsave : s.buffer.Save createOk writeOk with
        | ok frames =>
          simp only [runCapture, captureStep, hp, hsave, List.nil_append,
            noConcurrentPlayback, List.isEmpty_nil, Bool.true_and]
          exact ih _ [s.nextId] (Or.inr ⟨s.nextId, rfl, rfl⟩)
        | notFull i c =>
          simp only [runCapture, captureStep, hp, hsave, List.nil_append,
            List.singleton_append, noConcurrentPlayback]
          exact ih s [] (Or.inl rfl)
        | writerFailed =>
          simp only [runCapture, captureStep, hp, hsave, List.nil_append,
            List.singleton_append, noConcurrentPlayback]
          exact ih s [] (Or.inl rfl)
        | writeFailed ws j =>
          simp only [runCapture, captureStep, hp, hsave, List.nil_append,
            List.singleton_append, noConcurrentPlayback]
          exact ih s [] (Or.inl rfl)
      | some p =>
        cases hsave : s.buffer.Save createOk writeOk with
        | ok frames =>
          simp only [runCapture, captureStep, hp, hsave, List.cons_append,
            List.nil_append, noConcurrentPlayback, hrEmpty p hp,
            List.isEmpty_nil, Bool.true_and]
          exact ih { s with playback := some s.nextId, nextId := s.nextId + 1 } [s.nextId]
            (Or.inr ⟨s.nextId, rfl, rfl⟩)
        | notFull i c =>
          simp only [runCapture, captureStep, hp, hsave, List.cons_append,
            List.nil_append, noConcurrentPlayback, hrEmpty p hp]
          exact ih s [] (Or.inl rfl)
        | writerFailed =>
          simp only [runCapture, captureStep, hp, hsave, List.cons_append,
            List.nil_append, noConcurrentPlayback, hrEmpty p hp]
          exact ih s [] (Or.inl rfl)
        | writeFailed ws j =>
          simp only [runCapture, captureStep, hp, hsave, List.cons_append,
            List.nil_append, noConcurrentPlayback, hrEmpty p hp]
          exact ih s [] (Or.inl rfl)

/-- C6: processing a save signal while a playback is active for the stream
emits the stop of that playback as its very first action — before the buffer
save and before any new playback start — and consequently, over every signal
sequence from the initial state, no `playbackStarted` ever happens while
another playback is still running: no two ClipPlaybacks for the same stream
run concurrently. -/
theorem c6_save_cancels_playback_first [Inhabited α] (capacity : Nat)
    (sigs : List (CaptureSignal α)) (s : CaptureState α) (p : Nat)
    (hp : s.playback = some p) (createOk : Bool) (writeOk : Nat → Bool) :
    noConcurrentPlayback [] (runCapture (initialCaptureState α capacity) sigs) = true ∧
    ((captureStep s (CaptureSignal.save createOk writeOk)).2).head? =
      some (CaptureEvent.stopPlayback p) := by
  constructor
  · exact runCapture_no_concurrent sigs _ [] (Or.inl rfl)
  · simp only [captureStep, hp]
    cases s.buffer.Save createOk writeOk <;> rfl

theorem c6_save_cancels_playback_first_witness :
    ((⟨NewVideoFrameBuffer Nat 1, some 0, 1⟩ : CaptureState Nat).playback = some 0) ∧
    ((captureStep (⟨NewVideoFrameBuffer Nat 1, some 0, 1⟩ : CaptureState Nat)
        (CaptureSignal.save true (fun _ => true))).2).head? =
      some (CaptureEvent.stopPlayback 0) := by
  refine ⟨rfl, ?_⟩
  exact (c6_save_cancels_playback_first 1 [] ⟨NewVideoFrameBuffer Nat 1, some 0, 1⟩ 0 rfl
    true (fun _ => true)).2

/-! ## VideoPlayback.Start (src/video.go lines 260-300) -/

/-- The playback loop as a fuel-indexed run. `clip` is the immutable contents
of the saved clip file — each outer iteration reopens the same file, so a
failed read (`remaining = []`) resets the cursor to the start of `clip`.
`isEmptyF` is `gocv.Mat.Empty`; an empty decoded frame is skipped with no stop
check and no hand-off. `stopAt k` tells whether the stop signal is pending at
the `k`-th per-frame cancellation check; the check happens before the hand-off
to the display window. One unit of fuel is one inner-loop iteration. Returns
the frames handed to the window, in order, and whether the loop returned
(`true`) or was still running when the fuel ran out (`false`). -/
def playbackRun (clip : List α) (isEmptyF : α → Bool) (stopAt : Nat → Bool) :
    Nat → List α → Nat → List α × Bool
  | 0, _, _ => ([], false)
  | fuel + 1, [], checks => playbackRun clip isEmptyF stopAt fuel clip checks
  | fuel + 1, f :: rest, checks =>
    if isEmptyF f then playbackRun clip isEmptyF stopAt fuel rest checks
    else if stopAt checks then ([], true)
    else
      let r := playbackRun clip isEmptyF stopAt fuel rest (checks + 1)
      (f :: r.1, r.2)

/-- The ideal cyclic reading of a clip: what the loop hands off when no frame
is empty and no stop ever arrives. -/
def cycleRun (clip : List α) : Nat → List α → List α
  | 0, _ => []
  | fuel + 1, [] => cycleRun clip fuel clip
  | fuel + 1, f :: rest => f :: cycleRun clip fuel rest

theorem playbackRun_no_stop (clip : List α) (isEmptyF : α → Bool)
    (hclip : ∀ f ∈ clip, isEmptyF f = false) :
    ∀ (fuel : Nat) (remaining : List α) (checks : Nat),
      (∀ f ∈ remaining, isEmptyF f = false) →
      playbackRun clip isEmptyF (fun _ => false) fuel remaining checks =
        (cycleRun clip fuel remaining, false) := by
  intro fuel
  induction fuel with
  | zero =>
    intro remaining checks _
    rfl
  | succ fuel ih =>
    intro remaining checks hrem
    cases remaining with
    | nil =>
      rw [playbackRun, cycleRun]
      exact ih clip checks hclip
    | cons f rest =>
      have h1 : isEmptyF f = false := hrem f (List.mem_cons_self f rest)
      rw [playbackRun, cycleRun]
      simp only [h1, Bool.false_eq_true, if_false]
      rw [ih rest (checks + 1) (fun g hg => hrem g (List.mem_cons_of_mem f hg))]

theorem cycleRun_wrap (clip : List α) :
    ∀ (remaining : List α) (fuel : Nat),
      cycleRun clip (remaining.length + (fuel + 1)) remaining =
        remaining ++ cycleRun clip fuel clip := by
  intro remaining
  induction remaining with
  | nil =>
    intro fuel
    rw [List.length_nil, Nat.zero_add, cycleRun, List.nil_append]
  | cons f rest ih =>
    intro fuel
    have harith : (f :: rest).length + (fuel + 1) = (rest.length + (fuel + 1)) + 1 := by
      simp
      omega
    rw [harith, cycleRun, ih fuel, List.cons_append]

theorem cycleRun_replicate (clip : List α) (m : Nat) :
    cycleRun clip (m * (clip.length + 1)) clip = (List.replicate m clip).flatten := by
  induction m with
  | zero =>
    rw [Nat.zero_mul, cycleRun, List.replicate_zero, List.flatten_nil]
  | succ m ih =>
    have harith : (m + 1) * (clip.length + 1) =
        clip.length + (m * (clip.length + 1) + 1) := by ring
    rw [harith, cycleRun_wrap, ih, List.replicate_succ, List.flatten_cons]

/-- C7: for a clip with no empty frames, an uncancelled playback cycles
through the clip's frames forever: with fuel for `m` full passes the frames
handed to the window are exactly `m` copies of the clip in order (so after
the `K`-th frame the next hand-off is the clip's first frame again), and for
no amount of fuel does the uncancelled loop terminate — it terminates only on
the cancellation signal, which is checked once per non-empty frame, before
the hand-off, so a pending stop ends the playback with no further frame
handed off. -/
theorem c7_playback_loops_until_cancelled (clip : List α) (isEmptyF : α → Bool)
    (hclip : ∀ f ∈ clip, isEmptyF f = false) (m fuel : Nat) :
    playbackRun clip isEmptyF (fun _ => false) (m * (clip.length + 1)) clip 0 =
      ((List.replicate m clip).flatten, false) ∧
    (playbackRun clip isEmptyF (fun _ => false) fuel clip 0).2 = false ∧
    (∀ (f : α) (rest : List α) (fuel' checks : Nat), isEmptyF f = false →
      playbackRun clip isEmptyF (fun _ => true) (fuel' + 1) (f :: rest) checks =
        ([], true)) := by
  refine ⟨?_, ?_, ?_⟩
  · rw [playbackRun_no_stop clip isEmptyF hclip _ clip 0 hclip, cycleRun_replicate]
  · rw [playbackRun_no_stop clip isEmptyF hclip fuel clip 0 hclip]
  · intro f rest fuel' checks hf
    rw [playbackRun]
    simp only [hf, Bool.false_eq_true, if_false, if_true]

theorem c7_playback_loops_until_cancelled_witness :
    (∀ f ∈ [1, 2], (fun (_ : Nat) => false) f = false) ∧
    playbackRun [1, 2] (fun _ => false) (fun _ => false) (2 * (2 + 1)) [1, 2] 0 =
      ([1, 2, 1, 2], false) := by
  refine ⟨by decide, ?_⟩
  have h := (c7_playback_loops_until_cancelled [1, 2] (fun _ => false) (by decide) 2 0).1
  simpa using h

theorem c4_debounce_min_interval_witness :
    List.Chain' (fun d₁ d₂ => d₁.DetectionTime + 100 < d₂.DetectionTime)
      (runDetect (GoFloat.finite 75) 100 0 [⟨0, []⟩, ⟨100, []⟩]).2 ∧
    ∀ d ∈ (runDetect (GoFloat.finite 75) 100 0 [⟨0, []⟩, ⟨100, []⟩]).2,
      d.Decibel.gt (GoFloat.finite 75) = true :=
  c4_debounce_min_interval (GoFloat.finite 75) 100 0 [⟨0, []⟩, ⟨100, []⟩]

theorem c8_clip_file_name_format_witness :
    (formatTimestamp ⟨2026, 1, 2, 15, 4, 5⟩).length = 19 ∧
    (Char.isDigit '2' = true ∨ '2' = '-' ∨ '2' = ' ') := by
  have h := c8_clip_file_name_format "front" ⟨2026, 1, 2, 15, 4, 5⟩
  exact ⟨h.2.1, h.2.2.2.2 '2' (by decide)⟩

theorem c10_empty_window_nan_witness :
    calculateDecibels [] = GoFloat.nan ∧
    detectStep (GoFloat.finite 75) 100 0 ⟨5, []⟩ = (0, none) := by
  have h := c10_empty_window_nan
  exact ⟨h.2.1, h.2.2.2.2 (GoFloat.finite 75) 100 0 5⟩

end SwingPlayback
